import Mathlib

/-!
Shallow embedding of `src/video_to_mesh.py`.

The script has two functions:
* `sample_video_frames(video_path, fps_sample)` — opens a video with OpenCV,
  computes `interval = int(round(fps / fps_sample))` and keeps every frame whose
  zero-based decode index satisfies `idx % interval == 0`, converting it from
  BGR to RGB; returns the kept frames and their indices.
* `run_hamer_on_video(video_path, output_dir, fps_sample, device)` — samples
  frames, loads the HaMeR model, runs one forward pass per sampled frame,
  extracts vertices (trying the `"vertices"` key then `"pred_vertices"`) and the
  `"pred_cam"` camera vector (the extraction is duplicated verbatim in the
  source), and finally writes one compressed `.npz` archive with `vertices`,
  `faces`, `cameras` and `frame_indices`.

Modelling decisions:
* A video is its observable interface to the script: whether `VideoCapture`
  opens, the reported `CAP_PROP_FPS` value (as an exact rational), and the list
  of decodable frames in decode order.  A frame is a list of BGR pixel triples.
* Python exceptions become `Except` errors: `ValueError` for an unopenable
  video, `ZeroDivisionError` for `fps / 0` and for `idx % 0` inside the loop,
  `KeyError` / `IndexError` for the dictionary and batch-index lookups on the
  model output.
* Whether `cap.release()` executes is tracked as a `Bool` alongside the result:
  the source calls `release` only on the straight-line path after the decode
  loop, so any raised error leaves the capture unreleased.
* The HaMeR model, `cv2.resize`, and the tensor conversions are opaque external
  collaborators, so they are parameters of the inference environment.  The
  model output is a dictionary that may or may not contain each key, and every
  tensor value carries an explicit batch axis (a list) from which the source
  takes entry `[0]`.
* `np.savez_compressed` is the only write of the archive file; the pair
  returned by `run_hamer_on_video` is (the function result, the archive file
  content at the output path, `none` meaning nothing was written).  The dtype
  casts (`float32`/`int32`) are value-preserving on in-range data and the
  tensor payloads are opaque, so they are not modelled; `os.makedirs` creates
  the directory, not the archive, and is a no-op in the pure model.
-/

namespace VideoToMesh

/-- One pixel as stored by OpenCV: a (blue, green, red) channel triple. -/
abbrev Pixel : Type := ℕ × ℕ × ℕ

/-- A decoded frame: its pixels in the decoder's native BGR channel order. -/
abbrev Frame : Type := List Pixel

/-- Model of `cv2.cvtColor(frame, cv2.COLOR_BGR2RGB)`: swap the B and R channels of
every pixel. -/
def cvtColor_BGR2RGB (f : Frame) : Frame :=
  f.map (fun p => (p.2.2, p.2.1, p.1))

/-- A video as `sample_video_frames` observes it through `cv2.VideoCapture`:
whether it opens, the native frame rate reported by `CAP_PROP_FPS`, and the
sequence of decodable frames returned by successive `cap.read()` calls. -/
structure Video where
  opened : Bool
  fps : ℚ
  frames : List Frame
  deriving Repr, DecidableEq

/-- The exceptions `sample_video_frames` can raise: the explicit `ValueError`
for an unopenable video, and Python's `ZeroDivisionError` (from `fps /
fps_sample` with `fps_sample = 0`, or from `idx % interval` with
`interval = 0`). -/
inductive SampleError where
  | cannotOpen : SampleError
  | zeroDivision : SampleError
  deriving Repr, DecidableEq

/-- Python's `round` on the exact value of a float: round half to even. -/
def pythonRound (q : ℚ) : ℤ :=
  if q - ⌊q⌋ < 1 / 2 then ⌊q⌋
  else if 1 / 2 < q - ⌊q⌋ then ⌊q⌋ + 1
  else if 2 ∣ ⌊q⌋ then ⌊q⌋ else ⌊q⌋ + 1

/-- The decode loop of `sample_video_frames` (lines 24–32): read frames until
`cap.read()` fails, keep (after BGR→RGB conversion) each frame whose index
satisfies `idx % interval == 0`, recording the index.  Evaluating
`idx % interval` with `interval = 0` raises `ZeroDivisionError`. -/
def sampleLoop (interval : ℤ) : ℕ → List Frame → Except SampleError (List Frame × List ℕ)
  | _, [] => .ok ([], [])
  | idx, f :: rest =>
    if interval = 0 then .error .zeroDivision
    else if (idx : ℤ) % interval = 0 then
      match sampleLoop interval (idx + 1) rest with
      | .error e => .error e
      | .ok (fs, is) => .ok (cvtColor_BGR2RGB f :: fs, idx :: is)
    else sampleLoop interval (idx + 1) rest

/-- Model of `sample_video_frames(video_path, fps_sample)` (lines 12–35).  The first
component is the function's result (the parallel lists of kept RGB frames and
of their original indices, or the raised error); the second component records
whether `cap.release()` was executed — the source reaches the `release` call
(line 34) only when the loop finishes normally. -/
def sample_video_frames (v : Video) (fps_sample : ℚ) :
    Except SampleError (List Frame × List ℕ) × Bool :=
  if v.opened = false then (.error .cannotOpen, false)
  else if fps_sample = 0 then (.error .zeroDivision, false)
  else
    match sampleLoop (pythonRound (v.fps / fps_sample)) 0 v.frames with
    | .error e => (.error e, false)
    | .ok r => (.ok r, true)

/-- The errors a `run_hamer_on_video` call can raise before the final save:
the two sampling errors, a failure of `load_hamer` (missing/unreadable
checkpoint, unavailable device), and the `KeyError` / `IndexError` lookups on
the model output dictionary. -/
inductive RunError where
  | cannotOpen : RunError
  | zeroDivision : RunError
  | loadError : RunError
  | keyError : RunError
  | indexError : RunError
  deriving Repr, DecidableEq

/-- Injection of a sampling exception into the exceptions propagating out of
`run_hamer_on_video`. -/
def RunError.ofSample : SampleError → RunError
  | .cannotOpen => .cannotOpen
  | .zeroDivision => .zeroDivision

/-- The dictionary returned by one forward pass `model(batch)`.  Each key may
be absent (`none`); a present tensor carries its batch axis as a list, from
which the source takes entry `[0]`. -/
structure ModelOut (V C : Type) where
  vertices : Option (List V)
  pred_vertices : Option (List V)
  pred_cam : Option (List C)

/-- The loaded HaMeR model: an opaque forward function from an input tensor to
an output dictionary, plus the static `model.mano.faces` topology array. -/
structure HamerModel (Img V C F : Type) where
  run : Img → ModelOut V C
  manoFaces : F

/-- The external collaborators of `run_hamer_on_video`: the outcome of
`load_hamer(checkpoint_path)` followed by the device move (which may fail),
`cv2.resize(frame, (256, 256))`, and the tensor conversion
`torch.from_numpy(resized).permute(2,0,1).float()/255.0` then
`.unsqueeze(0).to(device)`. -/
structure Env (Img V C F : Type) where
  load_hamer : Except Unit (HamerModel Img V C F)
  resize256 : Frame → Frame
  toTensor : Frame → Img

/-- Extraction of the camera vector from the model output (lines 78–80):
`cam = out["pred_cam"].detach().cpu().numpy()[0]`, written twice in the
source — the second, duplicated extraction rebinds `cam`. -/
def extractCam {V C : Type} (out : ModelOut V C) (verts : V) :
    Except RunError (V × C) :=
  match out.pred_cam with
  | none => .error .keyError
  | some bc =>
    match bc.head? with
    | none => .error .indexError
    | some _cam =>
      match out.pred_cam with
      | none => .error .keyError
      | some bc2 =>
        match bc2.head? with
        | none => .error .indexError
        | some cam => .ok (verts, cam)

/-- The body of the inference loop for one sampled frame (lines 64–80): resize,
convert to a batched tensor, run the model, read the vertex array from the
`"vertices"` key if present and otherwise from `"pred_vertices"` (a missing
`"pred_vertices"` key is a `KeyError`), take batch entry `[0]`, then extract
the camera vector. -/
def inferFrame {Img V C F : Type} (env : Env Img V C F)
    (model : HamerModel Img V C F) (frame : Frame) : Except RunError (V × C) :=
  let resized := env.resize256 frame
  let img := env.toTensor resized
  let out := model.run img
  match out.vertices with
  | some bv =>
    match bv.head? with
    | none => .error .indexError
    | some verts => extractCam out verts
  | none =>
    match out.pred_vertices with
    | none => .error .keyError
    | some bv =>
      match bv.head? with
      | none => .error .indexError
      | some verts => extractCam out verts

/-- The per-frame inference loop (lines 62–84): process the sampled frames in
order, appending each frame's vertices to `all_vertices` and its camera vector
to `all_cameras`; the first raised error aborts the run. -/
def inferLoop {Img V C F : Type} (env : Env Img V C F)
    (model : HamerModel Img V C F) : List Frame → Except RunError (List V × List C)
  | [] => .ok ([], [])
  | f :: rest =>
    match inferFrame env model f with
    | .error e => .error e
    | .ok (v, c) =>
      match inferLoop env model rest with
      | .error e => .error e
      | .ok (vs, cs) => .ok (v :: vs, c :: cs)

/-- Model of `pathlib.Path(p).stem` for the file names this script meets: the last `/`
component with its final extension removed (a lone leading dot, as in
`.bashrc`, is not an extension). -/
def pathStem (p : String) : String :=
  let base := (p.splitOn ("/")).getLastD ("")
  let parts := base.splitOn (".")
  if parts.length ≤ 1 then base
  else if parts.headD ("") = "" ∧ parts.length = 2 then base
  else String.intercalate (".") parts.dropLast

/-- Model of `os.path.join(dir, name)` for a relative `name` and a `dir` without a
trailing separator. -/
def pathJoin (dir name : String) : String := dir ++ "/" ++ name

/-- The archive written by `np.savez_compressed` (lines 86–92): the
stacked per-frame vertex arrays, the faces topology, the stacked per-frame
camera vectors, and the original indices of the sampled frames.  The first
axis of each stacked array is the list structure. -/
structure Archive (V C F : Type) where
  vertices : List V
  faces : F
  cameras : List C
  frame_indices : List ℕ

/-- Model of `run_hamer_on_video(video_path, output_dir, fps_sample, device)`
(lines 38–95).  Returns the pair (function result, archive file written at the
output path): the result is the returned output path or the raised error, and
the second component is `none` exactly when `np.savez_compressed` — the only
write of the archive — was never reached. -/
def run_hamer_on_video {Img V C F : Type} (env : Env Img V C F) (video : Video)
    (video_path : String) (output_dir : String := "results")
    (fps_sample : ℚ := 2) : Except RunError String × Option (Archive V C F) :=
  let video_name := pathStem video_path
  let out_path := pathJoin output_dir (video_name ++ "_meshes.npz")
  match (sample_video_frames video fps_sample).1 with
  | .error e => (.error (RunError.ofSample e), none)
  | .ok (frames, frame_indices) =>
    match env.load_hamer with
    | .error _ => (.error .loadError, none)
    | .ok model =>
      let faces := model.manoFaces
      match inferLoop env model frames with
      | .error e => (.error e, none)
      | .ok (all_vertices, all_cameras) =>
        (.ok out_path,
         some { vertices := all_vertices, faces := faces,
                cameras := all_cameras, frame_indices := frame_indices })

/-- Variant of `extractCam` with the duplicated camera extraction removed: `pred_cam` is
read exactly once.  Used only to state that the duplication in the source is a
behavioural no-op. -/
def extractCamOnce {V C : Type} (out : ModelOut V C) (verts : V) :
    Except RunError (V × C) :=
  match out.pred_cam with
  | none => .error .keyError
  | some bc =>
    match bc.head? with
    | none => .error .indexError
    | some cam => .ok (verts, cam)

/-- Variant of `inferFrame` with the duplicated camera extraction removed. -/
def inferFrameOnce {Img V C F : Type} (env : Env Img V C F)
    (model : HamerModel Img V C F) (frame : Frame) : Except RunError (V × C) :=
  let resized := env.resize256 frame
  let img := env.toTensor resized
  let out := model.run img
  match out.vertices with
  | some bv =>
    match bv.head? with
    | none => .error .indexError
    | some verts => extractCamOnce out verts
  | none =>
    match out.pred_vertices with
    | none => .error .keyError
    | some bv =>
      match bv.head? with
      | none => .error .indexError
      | some verts => extractCamOnce out verts

/-- The per-frame loop built on `inferFrameOnce`. -/
def inferLoopOnce {Img V C F : Type} (env : Env Img V C F)
    (model : HamerModel Img V C F) : List Frame → Except RunError (List V × List C)
  | [] => .ok ([], [])
  | f :: rest =>
    match inferFrameOnce env model f with
    | .error e => .error e
    | .ok (v, c) =>
      match inferLoopOnce env model rest with
      | .error e => .error e
      | .ok (vs, cs) => .ok (v :: vs, c :: cs)

/-- Variant of `run_hamer_on_video` with the duplicated camera extraction removed
(extracting `pred_cam` exactly once per frame). -/
def run_hamer_on_video_once {Img V C F : Type} (env : Env Img V C F)
    (video : Video) (video_path : String) (output_dir : String := "results")
    (fps_sample : ℚ := 2) : Except RunError String × Option (Archive V C F) :=
  let video_name := pathStem video_path
  let out_path := pathJoin output_dir (video_name ++ "_meshes.npz")
  match (sample_video_frames video fps_sample).1 with
  | .error e => (.error (RunError.ofSample e), none)
  | .ok (frames, frame_indices) =>
    match env.load_hamer with
    | .error _ => (.error .loadError, none)
    | .ok model =>
      let faces := model.manoFaces
      match inferLoopOnce env model frames with
      | .error e => (.error e, none)
      | .ok (all_vertices, all_cameras) =>
        (.ok out_path,
         some { vertices := all_vertices, faces := faces,
                cameras := all_cameras, frame_indices := frame_indices })

/-! ### Properties of the decode loop -/

/-- The kept-frame and kept-index lists built by the decode loop are parallel:
one index is recorded per kept frame. -/
theorem sampleLoop_parallel (k : ℤ) :
    ∀ (fs : List Frame) (idx : ℕ) (L : List Frame) (I : List ℕ),
      sampleLoop k idx fs = .ok (L, I) → L.length = I.length := by
  intro fs
  induction fs with
  | nil =>
    intro idx L I h
    simp only [sampleLoop, Except.ok.injEq, Prod.mk.injEq] at h
    obtain ⟨hL, hI⟩ := h
    rw [← hL, ← hI]
    rfl
  | cons f rest ih =>
    intro idx L I h
    simp only [sampleLoop] at h
    by_cases hk : k = 0
    · simp [hk] at h
    · rw [if_neg hk] at h
      by_cases hmod : (idx : ℤ) % k = 0
      · rw [if_pos hmod] at h
        cases hrec : sampleLoop k (idx + 1) rest with
        | error e => rw [hrec] at h; exact absurd h (by simp)
        | ok r =>
          rw [hrec] at h
          obtain ⟨fs', is'⟩ := r
          simp only [Except.ok.injEq, Prod.mk.injEq] at h
          obtain ⟨hL, hI⟩ := h
          rw [← hL, ← hI]
          simpa using ih (idx + 1) fs' is' hrec
      · rw [if_neg hmod] at h
        exact ih (idx + 1) L I h

/-- Closed form of the index list the decode loop records when the stride is
nonzero: the positions `idx, idx+1, …, idx+|fs|-1` whose value is divisible by
the stride. -/
theorem sampleLoop_indices (k : ℤ) (hk : k ≠ 0) :
    ∀ (fs : List Frame) (idx : ℕ), ∃ L,
      sampleLoop k idx fs =
        .ok (L, ((List.range fs.length).map (· + idx)).filter
          (fun j => decide ((j : ℤ) % k = 0))) := by
  intro fs
  induction fs with
  | nil => intro idx; exact ⟨[], rfl⟩
  | cons f rest ih =>
    intro idx
    obtain ⟨L, hL⟩ := ih (idx + 1)
    have hrange : (List.range (rest.length + 1)).map (· + idx)
        = idx :: (List.range rest.length).map (· + (idx + 1)) := by
      rw [List.range_succ_eq_map, List.map_cons, List.map_map]
      refine congrArg₂ _ (Nat.zero_add idx) (List.map_congr_left ?_)
      intro j _
      simp [Function.comp, Nat.succ_eq_add_one]
      omega
    by_cases hmod : (idx : ℤ) % k = 0
    · refine ⟨cvtColor_BGR2RGB f :: L, ?_⟩
      simp only [sampleLoop, if_neg hk, hL, List.length_cons, hrange, List.filter_cons]
      simp [hmod]
    · refine ⟨L, ?_⟩
      simp only [sampleLoop, if_neg hk, hL, List.length_cons, hrange, List.filter_cons]
      simp [hmod]

/-- Successful sampling means: the capture opened, the target rate is nonzero,
and the decode loop returned the two lists. -/
theorem sample_ok_elim (v : Video) (s : ℚ) (L : List Frame) (I : List ℕ)
    (h : (sample_video_frames v s).1 = .ok (L, I)) :
    v.opened = true ∧ s ≠ 0 ∧
      sampleLoop (pythonRound (v.fps / s)) 0 v.frames = .ok (L, I) := by
  unfold sample_video_frames at h
  by_cases h1 : v.opened = false
  · simp [h1] at h
  · rw [if_neg h1] at h
    by_cases h2 : s = 0
    · simp [h2] at h
    · rw [if_neg h2] at h
      refine ⟨by simpa using h1, h2, ?_⟩
      cases hsl : sampleLoop (pythonRound (v.fps / s)) 0 v.frames with
      | error e => rw [hsl] at h; exact absurd h (by simp)
      | ok r => rw [hsl] at h; simp at h; rw [h]

/-- When at least one frame decodes and sampling succeeds, the stride cannot
have been zero (a zero stride raises at the first `idx % interval`). -/
theorem sample_ok_stride_ne_zero (v : Video) (s : ℚ) (L : List Frame) (I : List ℕ)
    (h : (sample_video_frames v s).1 = .ok (L, I)) (hne : v.frames ≠ []) :
    pythonRound (v.fps / s) ≠ 0 := by
  obtain ⟨-, -, hsl⟩ := sample_ok_elim v s L I h
  intro hk0
  cases hfr : v.frames with
  | nil => exact hne hfr
  | cons f rest =>
    rw [hfr, hk0] at hsl
    simp [sampleLoop] at hsl

/-- For a positive stride `k`, testing `idx % k == 0` over the integers is
testing divisibility by `k.toNat` over the naturals. -/
theorem emod_filter_eq_dvd_filter (k : ℤ) (hk : 1 ≤ k) (T : ℕ) :
    (List.range T).filter (fun (j : ℕ) => decide ((j : ℤ) % k = 0))
      = (List.range T).filter (fun (j : ℕ) => decide (k.toNat ∣ j)) := by
  refine List.filter_congr ?_
  intro j _
  refine decide_eq_decide.mpr ?_
  constructor
  · intro h
    have hdvd : k ∣ (j : ℤ) := Int.dvd_of_emod_eq_zero h
    have hk' : ((k.toNat : ℤ)) = k := Int.toNat_of_nonneg (by omega)
    rw [← hk'] at hdvd
    exact_mod_cast hdvd
  · intro h
    refine Int.emod_eq_zero_of_dvd ?_
    have hk' : ((k.toNat : ℤ)) = k := Int.toNat_of_nonneg (by omega)
    rw [← hk']
    exact_mod_cast h

/-- Counting the multiples of `m` among `0, …, T-1`: there are exactly
`⌈T / m⌉ = (T + m - 1) / m` of them. -/
theorem length_filter_dvd_range (m : ℕ) (hm : m ≠ 0) :
    ∀ T : ℕ, ((List.range T).filter (fun j => decide (m ∣ j))).length
      = (T + m - 1) / m := by
  intro T
  induction T with
  | zero =>
    rw [List.range_zero, List.filter_nil, List.length_nil,
      Nat.div_eq_of_lt (by omega)]
  | succ T ih =>
    rw [List.range_succ, List.filter_append, List.length_append, ih]
    have h1 : T + 1 + m - 1 = T + m := by omega
    have h2 : T + m = (T + m - 1) + 1 := by omega
    have h3 : m ∣ T + m ↔ m ∣ T := by
      rw [Nat.add_comm]
      exact Nat.dvd_add_right dvd_rfl
    by_cases hd : m ∣ T
    · rw [h1, h2, Nat.succ_div_of_dvd (by rw [← h2, h3]; exact hd)]
      simp [hd]
    · rw [h1, h2, Nat.succ_div_of_not_dvd (by rw [← h2, h3]; exact hd)]
      simp [hd]

/-- Natural-number ceiling division agrees with the `(T + m - 1) / m`
formula. -/
theorem nat_ceil_div_eq (T m : ℕ) (hm : m ≠ 0) :
    ⌈(T : ℚ) / (m : ℚ)⌉₊ = (T + m - 1) / m := by
  have hm0 : 0 < m := Nat.pos_of_ne_zero hm
  have hmq : (0 : ℚ) < (m : ℚ) := by exact_mod_cast hm0
  rcases Nat.eq_zero_or_pos T with hT | hT
  · subst hT
    rw [Nat.cast_zero, zero_div, Nat.ceil_zero, Nat.div_eq_of_lt (by omega)]
  · have hn1 : 1 ≤ (T + m - 1) / m := by
      rw [Nat.one_le_div_iff hm0]; omega
    obtain ⟨n', hn'⟩ : ∃ n', (T + m - 1) / m = n' + 1 :=
      ⟨(T + m - 1) / m - 1, by omega⟩
    have hdm := Nat.div_add_mod (T + m - 1) m
    have hmod := Nat.mod_lt (T + m - 1) hm0
    rw [hn'] at hdm
    have hmul : m * (n' + 1) = m * n' + m := Nat.mul_succ m n'
    have hlow : n' * m < T := by rw [Nat.mul_comm]; omega
    have hhigh : T ≤ (n' + 1) * m := by rw [Nat.mul_comm]; omega
    rw [hn', Nat.ceil_eq_iff (by omega)]
    constructor
    · have : ((n' : ℚ)) < (T : ℚ) / (m : ℚ) := by
        rw [lt_div_iff₀ hmq]
        exact_mod_cast hlow
      simpa using this
    · rw [div_le_iff₀ hmq]
      exact_mod_cast hhigh

/-- Whatever the stride, the first retained index of a nonempty range of
positions starting at 0 is position 0 (`0 % interval == 0`). -/
theorem filter_range_head (k : ℤ) (T : ℕ) (hT : T ≠ 0) :
    ((List.range T).filter (fun (j : ℕ) => decide ((j : ℤ) % k = 0))).head?
      = some 0 := by
  obtain ⟨T', rfl⟩ : ∃ T', T = T' + 1 := ⟨T - 1, by omega⟩
  rw [List.range_succ_eq_map, List.filter_cons]
  simp

/-- A successful sampling run is the decode loop's result with the release
flag set. -/
theorem sample_eq_of_loop_ok (v : Video) (s : ℚ) (ho : v.opened = true)
    (hs : s ≠ 0) (r : List Frame × List ℕ)
    (h : sampleLoop (pythonRound (v.fps / s)) 0 v.frames = .ok r) :
    sample_video_frames v s = (.ok r, true) := by
  unfold sample_video_frames
  rw [ho, if_neg (by simp), if_neg hs, h]

/-- C1: the claim says a target rate exceeding the native rate collapses the
stride to 0 or 1 and that sampling is guarded against division or modulo by
zero.  The stride does collapse to 0, but the code is not guarded: on a video
that opens with native rate 30, one decodable frame, and `fps_sample = 100`,
the stride is `int(round(30/100)) = 0` and the decode loop evaluates
`idx % 0`, raising `ZeroDivisionError`. -/
theorem sample_modulo_by_zero_reachable :
    pythonRound ((30 : ℚ) / 100) = 0 ∧
    (sample_video_frames { opened := true, fps := 30, frames := [[(0, 0, 0)]] }
        100).1 = .error .zeroDivision := by
  refine ⟨by norm_num [pythonRound], ?_⟩
  have h0 : pythonRound ((3 : ℚ) / 10) = 0 := by norm_num [pythonRound]
  norm_num [sample_video_frames, sampleLoop, h0]

/-- C4: the claim says the capture is released on every exit path.  It is not:
`cap.release()` is only reached by falling out of the decode loop, so both the
unopenable-video `ValueError` and a `ZeroDivisionError` raised inside the loop
leave the capture unreleased (release flag `false`). -/
theorem sample_release_skipped_on_error :
    sample_video_frames { opened := true, fps := 10, frames := [[(1, 2, 3)]] } 25
      = (.error .zeroDivision, false) ∧
    sample_video_frames { opened := false, fps := 30, frames := [[(1, 2, 3)]] } 2
      = (.error .cannotOpen, false) := by
  have h0 : pythonRound ((2 : ℚ) / 5) = 0 := by norm_num [pythonRound]
  constructor
  · norm_num [sample_video_frames, sampleLoop, h0]
  · norm_num [sample_video_frames]

/-- C3: whenever `sample_video_frames` returns on a video with at least one
decodable frame, the returned index list is strictly increasing, every entry
is a multiple of the computed stride `round(fps / fps_sample)`, and the first
entry is 0. -/
theorem sample_frame_indices_strictMono (v : Video) (s : ℚ) (L : List Frame)
    (I : List ℕ) (hok : (sample_video_frames v s).1 = .ok (L, I))
    (hne : v.frames ≠ []) :
    List.Sorted (· < ·) I ∧
      (∀ j ∈ I, pythonRound (v.fps / s) ∣ (j : ℤ)) ∧
      I.head? = some 0 := by
  obtain ⟨ho, hs, hsl⟩ := sample_ok_elim v s L I hok
  have hk0 := sample_ok_stride_ne_zero v s L I hok hne
  obtain ⟨L', hL'⟩ := sampleLoop_indices _ hk0 v.frames 0
  have heq := hsl.symm.trans hL'
  simp only [Except.ok.injEq, Prod.mk.injEq] at heq
  obtain ⟨-, hII⟩ := heq
  have hmap : (List.range v.frames.length).map (· + 0)
      = List.range v.frames.length := by simp
  rw [hmap] at hII
  have hT : v.frames.length ≠ 0 := by
    simpa [List.length_eq_zero] using hne
  subst hII
  refine ⟨List.Pairwise.filter _ (List.pairwise_lt_range _), ?_, ?_⟩
  · intro j hj
    exact Int.dvd_of_emod_eq_zero (of_decide_eq_true (List.mem_filter.mp hj).2)
  · exact filter_range_head _ _ hT

/-- C3 at a concrete input: a video that opens at 30 fps with four decodable
frames, sampled at 10 fps (stride 3), keeps indices `[0, 3]`. -/
theorem sample_frame_indices_strictMono_witness :
    List.Sorted (· < ·) ([0, 3] : List ℕ) ∧
      (∀ j ∈ ([0, 3] : List ℕ), pythonRound ((30 : ℚ) / 10) ∣ (j : ℤ)) ∧
      ([0, 3] : List ℕ).head? = some 0 :=
  sample_frame_indices_strictMono
    { opened := true, fps := 30, frames := [[], [], [], []] } 10
    [[], []] [0, 3]
    (by
      have h3 : pythonRound ((3 : ℚ)) = 3 := by norm_num [pythonRound]
      norm_num [sample_video_frames, sampleLoop, cvtColor_BGR2RGB, h3])
    (by simp)

/-- C10: when the video opens and the computed stride is at least 1, sampling
succeeds and returns exactly `⌈T / interval⌉` frames for `T` decodable frames,
one index per frame, and (when `T ≥ 1`) the frame at index 0 is always
retained. -/
theorem sample_count_ceil (v : Video) (s : ℚ) (ho : v.opened = true)
    (hk : 1 ≤ pythonRound (v.fps / s)) :
    ∃ L I, (sample_video_frames v s).1 = .ok (L, I) ∧
      L.length = ⌈(v.frames.length : ℚ) / ((pythonRound (v.fps / s) : ℤ) : ℚ)⌉₊ ∧
      I.length = L.length ∧
      (v.frames ≠ [] → I.head? = some 0) := by
  have hs : s ≠ 0 := by
    intro h
    rw [h, div_zero] at hk
    simp [pythonRound] at hk
  have hk0 : pythonRound (v.fps / s) ≠ 0 := by omega
  obtain ⟨L, hL⟩ := sampleLoop_indices _ hk0 v.frames 0
  have hmap : (List.range v.frames.length).map (· + 0)
      = List.range v.frames.length := by simp
  rw [hmap] at hL
  refine ⟨L, _, by rw [sample_eq_of_loop_ok v s ho hs _ hL], ?_, ?_, ?_⟩
  · have hpar := sampleLoop_parallel _ _ _ _ _ hL
    rw [hpar, emod_filter_eq_dvd_filter _ hk _,
      length_filter_dvd_range _ (by omega) _,
      ← nat_ceil_div_eq _ _ (by omega)]
    have hcast : (((pythonRound (v.fps / s)).toNat : ℕ) : ℚ)
        = (((pythonRound (v.fps / s)) : ℤ) : ℚ) := by
      exact_mod_cast congrArg (fun z : ℤ => (z : ℚ))
        (Int.toNat_of_nonneg (by omega))
    rw [hcast]
  · exact (sampleLoop_parallel _ _ _ _ _ hL).symm
  · intro hne
    exact filter_range_head _ _ (by simpa [List.length_eq_zero] using hne)

/-- C10 at a concrete input: a video that opens at 30 fps with seven decodable
frames, sampled at 10 fps (stride 3), yields `⌈7/3⌉ = 3` frames and keeps
frame 0. -/
theorem sample_count_ceil_witness :
    ∃ L I, (sample_video_frames
        { opened := true, fps := 30, frames := [[], [], [], [], [], [], []] }
        10).1 = .ok (L, I) ∧
      L.length = ⌈((7 : ℕ) : ℚ) / ((pythonRound ((30 : ℚ) / 10) : ℤ) : ℚ)⌉₊ ∧
      I.length = L.length ∧
      (([[], [], [], [], [], [], []] : List Frame) ≠ [] → I.head? = some 0) :=
  sample_count_ceil
    { opened := true, fps := 30, frames := [[], [], [], [], [], [], []] } 10
    rfl (by norm_num [pythonRound])

/-- C7: sampling is deterministic — two runs over the same observable video
(same open status, native rate, and decodable frame sequence) with the same
target rate return identical results, frame indices included. -/
theorem sampling_deterministic (v₁ v₂ : Video) (s : ℚ)
    (ho : v₁.opened = v₂.opened) (hf : v₁.fps = v₂.fps)
    (hfr : v₁.frames = v₂.frames) :
    sample_video_frames v₁ s = sample_video_frames v₂ s := by
  have hv : v₁ = v₂ := by
    cases v₁
    cases v₂
    simp_all
  rw [hv]

/-- C7 at a concrete input: two runs on the same one-frame video agree. -/
theorem sampling_deterministic_witness :
    sample_video_frames { opened := true, fps := 24, frames := [[(5, 5, 5)]] } 2
      = sample_video_frames { opened := true, fps := 24, frames := [[(5, 5, 5)]] } 2 :=
  sampling_deterministic _ _ 2 rfl rfl rfl

/-! ### Properties of the inference loop and the archive writer -/

/-- A successful inference loop produces one vertex array and one camera
vector per sampled frame, in frame order: the `i`-th entries of both output
lists are the result of running inference on the `i`-th sampled frame. -/
theorem inferLoop_elim {Img V C F : Type} (env : Env Img V C F)
    (model : HamerModel Img V C F) :
    ∀ (frames : List Frame) (vs : List V) (cs : List C),
      inferLoop env model frames = .ok (vs, cs) →
      vs.length = frames.length ∧ cs.length = frames.length ∧
        ∀ (i : ℕ) (f : Frame), frames[i]? = some f →
          ∃ v c, vs[i]? = some v ∧ cs[i]? = some c ∧
            inferFrame env model f = .ok (v, c) := by
  intro frames
  induction frames with
  | nil =>
    intro vs cs h
    simp only [inferLoop, Except.ok.injEq, Prod.mk.injEq] at h
    obtain ⟨h1, h2⟩ := h
    refine ⟨by rw [← h1]; rfl, by rw [← h2]; rfl, ?_⟩
    intro i f hf
    simp at hf
  | cons f rest ih =>
    intro vs cs h
    simp only [inferLoop] at h
    cases hinf : inferFrame env model f with
    | error e => rw [hinf] at h; exact absurd h (by simp)
    | ok vc =>
      obtain ⟨v, c⟩ := vc
      rw [hinf] at h
      cases hrec : inferLoop env model rest with
      | error e => rw [hrec] at h; exact absurd h (by simp)
      | ok p =>
        obtain ⟨vs', cs'⟩ := p
        rw [hrec] at h
        simp only [Except.ok.injEq, Prod.mk.injEq] at h
        obtain ⟨hvs, hcs⟩ := h
        obtain ⟨l1, l2, hcorr⟩ := ih vs' cs' hrec
        refine ⟨by rw [← hvs]; simp [l1], by rw [← hcs]; simp [l2], ?_⟩
        intro i f' hf
        cases i with
        | zero =>
          simp only [List.getElem?_cons_zero, Option.some.injEq] at hf
          exact ⟨v, c, by rw [← hvs]; simp, by rw [← hcs]; simp,
            by rw [← hf]; exact hinf⟩
        | succ i =>
          simp only [List.getElem?_cons_succ] at hf
          obtain ⟨v', c', hv', hc', hinf'⟩ := hcorr i f' hf
          exact ⟨v', c', by rw [← hvs]; simpa using hv',
            by rw [← hcs]; simpa using hc', hinf'⟩

/-- Assembling a successful run from its three stages: the sampled frames, the
loaded model, and the completed inference loop determine the returned path and
the written archive. -/
theorem run_eq_of_parts {Img V C F : Type} (env : Env Img V C F) (video : Video)
    (vp od : String) (s : ℚ) (L : List Frame) (I : List ℕ)
    (model : HamerModel Img V C F) (vs : List V) (cs : List C)
    (hsample : (sample_video_frames video s).1 = .ok (L, I))
    (hm : env.load_hamer = .ok model)
    (hloop : inferLoop env model L = .ok (vs, cs)) :
    run_hamer_on_video env video vp od s =
      (.ok (pathJoin od (pathStem vp ++ "_meshes.npz")),
       some { vertices := vs, faces := model.manoFaces, cameras := cs,
              frame_indices := I }) := by
  unfold run_hamer_on_video
  rw [hsample, hm]
  simp only []
  rw [hloop]

/-- Decomposing a run that returned a path and wrote an archive: sampling
succeeded, the model loaded, the inference loop completed and filled the
archive, and the faces entry is the model's static topology. -/
theorem run_ok_elim {Img V C F : Type} (env : Env Img V C F) (video : Video)
    (vp od : String) (s : ℚ) (p : String) (arch : Archive V C F)
    (h : run_hamer_on_video env video vp od s = (.ok p, some arch)) :
    ∃ model L I, env.load_hamer = .ok model ∧
      (sample_video_frames video s).1 = .ok (L, I) ∧
      arch.faces = model.manoFaces ∧
      arch.frame_indices = I ∧
      inferLoop env model L = .ok (arch.vertices, arch.cameras) := by
  unfold run_hamer_on_video at h
  cases hs : (sample_video_frames video s).1 with
  | error e => rw [hs] at h; exact absurd h (by simp)
  | ok r =>
    obtain ⟨L, I⟩ := r
    rw [hs] at h
    simp only [] at h
    cases hm : env.load_hamer with
    | error u => rw [hm] at h; exact absurd h (by simp)
    | ok model =>
      rw [hm] at h
      simp only [] at h
      cases hloop : inferLoop env model L with
      | error e => rw [hloop] at h; exact absurd h (by simp)
      | ok q =>
        obtain ⟨vs, cs⟩ := q
        rw [hloop] at h
        simp only [Prod.mk.injEq, Except.ok.injEq, Option.some.injEq] at h
        obtain ⟨-, harch⟩ := h
        refine ⟨model, L, I, rfl, rfl, ?_, ?_, ?_⟩
        · rw [← harch]
        · rw [← harch]
        · rw [← harch]; exact hloop

/-- A concrete model for witnesses: every forward pass returns vertex batch
`[1]` under the `"vertices"` key and camera batch `[2]`, with faces array
`9`. -/
def demoModel : HamerModel ℕ ℕ ℕ ℕ where
  run := fun _ => { vertices := some [1], pred_vertices := none, pred_cam := some [2] }
  manoFaces := 9

/-- A concrete inference environment for witnesses, whose checkpoint loads
`demoModel`. -/
def demoEnv : Env ℕ ℕ ℕ ℕ where
  load_hamer := .ok demoModel
  resize256 := id
  toTensor := fun _ => 0

/-- The archive written by the run of `demoEnv` on a two-frame video sampled
down to one frame. -/
def demoArchive : Archive ℕ ℕ ℕ where
  vertices := [1]
  faces := 9
  cameras := [2]
  frame_indices := [0]

/-- C2: whenever `run_hamer_on_video` completes and writes the archive, the
first dimensions of `vertices`, `cameras` and `frame_indices` all equal the
number of sampled frames, and the `i`-th entries of all three arrays belong to
the `i`-th sampled frame: `frame_indices` is the sampler's index list and
`vertices[i]`/`cameras[i]` are the inference output on sampled frame `i`. -/
theorem archive_arrays_aligned {Img V C F : Type} (env : Env Img V C F)
    (video : Video) (vp od : String) (s : ℚ) (p : String) (arch : Archive V C F)
    (h : run_hamer_on_video env video vp od s = (.ok p, some arch)) :
    ∃ model L I, env.load_hamer = .ok model ∧
      (sample_video_frames video s).1 = .ok (L, I) ∧
      arch.vertices.length = L.length ∧
      arch.cameras.length = L.length ∧
      arch.frame_indices.length = L.length ∧
      arch.frame_indices = I ∧
      ∀ (i : ℕ) (f : Frame), L[i]? = some f →
        ∃ v c, arch.vertices[i]? = some v ∧ arch.cameras[i]? = some c ∧
          inferFrame env model f = .ok (v, c) := by
  obtain ⟨model, L, I, hm, hsam, hfaces, hfi, hloop⟩ :=
    run_ok_elim env video vp od s p arch h
  obtain ⟨l1, l2, hcorr⟩ :=
    inferLoop_elim env model L arch.vertices arch.cameras hloop
  have hlen : I.length = L.length := by
    obtain ⟨-, -, hsl⟩ := sample_ok_elim video s L I hsam
    exact (sampleLoop_parallel _ _ _ _ _ hsl).symm
  exact ⟨model, L, I, hm, hsam, l1, l2, by rw [hfi, hlen], hfi, hcorr⟩

/-- C2 at a concrete input: a 30 fps two-frame video sampled at 2 fps keeps
frame 0 only, and the written archive has one vertex array, one camera vector
and one frame index, aligned with that frame. -/
theorem archive_arrays_aligned_witness :
    ∃ model L I, demoEnv.load_hamer = .ok model ∧
      (sample_video_frames { opened := true, fps := 30, frames := [[], []] }
          2).1 = .ok (L, I) ∧
      demoArchive.vertices.length = L.length ∧
      demoArchive.cameras.length = L.length ∧
      demoArchive.frame_indices.length = L.length ∧
      demoArchive.frame_indices = I ∧
      ∀ (i : ℕ) (f : Frame), L[i]? = some f →
        ∃ v c, demoArchive.vertices[i]? = some v ∧
          demoArchive.cameras[i]? = some c ∧
          inferFrame demoEnv model f = .ok (v, c) :=
  archive_arrays_aligned demoEnv { opened := true, fps := 30, frames := [[], []] }
    "video.mp4" "results" 2
    (pathJoin ("results") (pathStem ("video.mp4") ++ "_meshes.npz")) demoArchive
    (run_eq_of_parts demoEnv { opened := true, fps := 30, frames := [[], []] }
      "video.mp4" "results" 2 [[]] [0] demoModel [1] [2]
      (by
        have h15 : pythonRound ((15 : ℚ)) = 15 := by norm_num [pythonRound]
        norm_num [sample_video_frames, sampleLoop, h15, cvtColor_BGR2RGB])
      rfl rfl)

/-- C5: the compressed save is the only persistence point — on every failing
run (any raised error, at sampling, model loading, or any per-frame inference
step) nothing is written at the output path, partial or otherwise. -/
theorem run_failure_writes_nothing {Img V C F : Type} (env : Env Img V C F)
    (video : Video) (vp od : String) (s : ℚ) (e : RunError)
    (h : (run_hamer_on_video env video vp od s).1 = .error e) :
    (run_hamer_on_video env video vp od s).2 = none := by
  unfold run_hamer_on_video at h ⊢
  revert h
  cases hs : (sample_video_frames video s).1 with
  | error e' => intro h; simp
  | ok r =>
    obtain ⟨L, I⟩ := r
    simp only []
    cases hm : env.load_hamer with
    | error u => intro h; simp
    | ok model =>
      simp only []
      cases hloop : inferLoop env model L with
      | error e' => intro h; simp
      | ok q =>
        obtain ⟨vs, cs⟩ := q
        intro h
        simp at h

/-- C5 at a concrete input: on an unopenable video the run raises and no
archive is written. -/
theorem run_failure_writes_nothing_witness :
    (run_hamer_on_video demoEnv { opened := false, fps := 30, frames := [] }
      "clip.mp4" "results" 2).2 = none :=
  run_failure_writes_nothing demoEnv { opened := false, fps := 30, frames := [] }
    "clip.mp4" "results" 2 .cannotOpen rfl

/-- C6: a video that opens but yields zero decodable frames samples to two
empty sequences without raising (and the capture is released), and the run
still writes the archive, whose `vertices`, `cameras` and `frame_indices`
all have first dimension 0. -/
theorem empty_video_still_writes_archive {Img V C F : Type} (env : Env Img V C F)
    (video : Video) (vp od : String) (s : ℚ) (model : HamerModel Img V C F)
    (ho : video.opened = true) (hempty : video.frames = [])
    (hs : s ≠ 0) (hm : env.load_hamer = .ok model) :
    sample_video_frames video s = (.ok ([], []), true) ∧
    ∃ p arch, run_hamer_on_video env video vp od s = (.ok p, some arch) ∧
      arch.vertices.length = 0 ∧ arch.cameras.length = 0 ∧
      arch.frame_indices.length = 0 := by
  have hsample : sample_video_frames video s = (.ok ([], []), true) := by
    refine sample_eq_of_loop_ok video s ho hs ([], []) ?_
    rw [hempty]
    rfl
  refine ⟨hsample, pathJoin od (pathStem vp ++ "_meshes.npz"),
    { vertices := [], faces := model.manoFaces, cameras := [],
      frame_indices := [] }, ?_, rfl, rfl, rfl⟩
  exact run_eq_of_parts env video vp od s [] [] model [] []
    (by rw [hsample]) hm rfl

/-- C6 at a concrete input: an opened 30 fps video with no decodable frames
still produces an archive, with all three stacked arrays empty. -/
theorem empty_video_still_writes_archive_witness :
    sample_video_frames { opened := true, fps := 30, frames := [] } 2
      = (.ok ([], []), true) ∧
    ∃ p arch, run_hamer_on_video demoEnv
        { opened := true, fps := 30, frames := [] } "empty.mp4" "results" 2
      = (.ok p, some arch) ∧
      arch.vertices.length = 0 ∧ arch.cameras.length = 0 ∧
      arch.frame_indices.length = 0 :=
  empty_video_still_writes_archive demoEnv
    { opened := true, fps := 30, frames := [] } "empty.mp4" "results" 2
    demoModel rfl rfl (by norm_num) rfl

/-- C8: the faces entry of the archive does not depend on the input video or
its frames — any two completed runs sharing the same loaded model write the
same faces array, sourced from the model's static topology. -/
theorem faces_independent_of_video {Img V C F : Type} (env : Env Img V C F)
    (v₁ v₂ : Video) (vp₁ vp₂ od₁ od₂ : String) (s₁ s₂ : ℚ)
    (p₁ p₂ : String) (a₁ a₂ : Archive V C F)
    (h₁ : run_hamer_on_video env v₁ vp₁ od₁ s₁ = (.ok p₁, some a₁))
    (h₂ : run_hamer_on_video env v₂ vp₂ od₂ s₂ = (.ok p₂, some a₂)) :
    a₁.faces = a₂.faces := by
  obtain ⟨m₁, L₁, I₁, hm₁, -, hf₁, -, -⟩ := run_ok_elim env v₁ vp₁ od₁ s₁ p₁ a₁ h₁
  obtain ⟨m₂, L₂, I₂, hm₂, -, hf₂, -, -⟩ := run_ok_elim env v₂ vp₂ od₂ s₂ p₂ a₂ h₂
  have hmm : m₁ = m₂ := Except.ok.inj (hm₁.symm.trans hm₂)
  rw [hf₁, hf₂, hmm]

/-- C8 at a concrete input: runs on a two-frame video and on a frameless video
write archives with the same faces entry. -/
theorem faces_independent_of_video_witness :
    demoArchive.faces
      = ({ vertices := [], faces := 9, cameras := [],
           frame_indices := [] } : Archive ℕ ℕ ℕ).faces :=
  faces_independent_of_video demoEnv
    { opened := true, fps := 30, frames := [[], []] }
    { opened := true, fps := 30, frames := [] }
    "video.mp4" "empty.mp4" "results" "results" 2 2 _ _ demoArchive _
    (run_eq_of_parts demoEnv { opened := true, fps := 30, frames := [[], []] }
      "video.mp4" "results" 2 [[]] [0] demoModel [1] [2]
      (by
        have h15 : pythonRound ((15 : ℚ)) = 15 := by norm_num [pythonRound]
        norm_num [sample_video_frames, sampleLoop, h15, cvtColor_BGR2RGB])
      rfl rfl)
    (run_eq_of_parts demoEnv { opened := true, fps := 30, frames := [] }
      "empty.mp4" "results" 2 [] [] demoModel [] []
      (by
        have h15 : pythonRound ((15 : ℚ)) = 15 := by norm_num [pythonRound]
        norm_num [sample_video_frames, sampleLoop, h15])
      rfl rfl)

/-- The duplicated `pred_cam` extraction reads the same dictionary entry and
batch element twice, so it yields the same camera vector as a single read. -/
theorem extractCam_eq_once {V C : Type} (out : ModelOut V C) (verts : V) :
    extractCam out verts = extractCamOnce out verts := by
  unfold extractCam extractCamOnce
  cases hc : out.pred_cam with
  | none => rfl
  | some bc =>
    cases hh : bc.head? with
    | none => simp [hh]
    | some cam => simp [hh]

/-- Per-frame inference is unchanged by removing the duplicate extraction. -/
theorem inferFrame_eq_once {Img V C F : Type} (env : Env Img V C F)
    (model : HamerModel Img V C F) (f : Frame) :
    inferFrame env model f = inferFrameOnce env model f := by
  simp only [inferFrame, inferFrameOnce]
  cases hv : (model.run (env.toTensor (env.resize256 f))).vertices with
  | some bv =>
    cases hh : bv.head? with
    | none => simp [hh]
    | some verts => simp [hh, extractCam_eq_once]
  | none =>
    cases hp : (model.run (env.toTensor (env.resize256 f))).pred_vertices with
    | none => rfl
    | some bv =>
      cases hh : bv.head? with
      | none => simp [hh]
      | some verts => simp [hh, extractCam_eq_once]

/-- The whole inference loop is unchanged by removing the duplicate
extraction. -/
theorem inferLoop_eq_once {Img V C F : Type} (env : Env Img V C F)
    (model : HamerModel Img V C F) :
    ∀ frames, inferLoop env model frames = inferLoopOnce env model frames := by
  intro frames
  induction frames with
  | nil => rfl
  | cons f rest ih =>
    simp only [inferLoop, inferLoopOnce, inferFrame_eq_once, ih]

/-- C9: the duplicated camera extraction in the per-frame loop is a
behavioural no-op — `run_hamer_on_video` with the repetition removed returns
the same output path and writes an archive with identical vertices, faces,
cameras and frame_indices, on every input. -/
theorem duplicate_cam_extraction_noop {Img V C F : Type} (env : Env Img V C F)
    (video : Video) (vp od : String) (s : ℚ) :
    run_hamer_on_video env video vp od s
      = run_hamer_on_video_once env video vp od s := by
  unfold run_hamer_on_video run_hamer_on_video_once
  simp only [inferLoop_eq_once]

end VideoToMesh
